import Mathlib

/-!
Verification of the `DocstringWalker` reader
(`src/llama_index/readers/docstring_walker/base.py`).

The Python module walks a directory, parses each `.py` file with `ast`,
and for files that contain a function decorated with `@register_tool(...)`
builds a textual document of module/class/function docstrings.

We embed the relevant fragment of the Python AST and the walker's
functions as Lean definitions, keeping the source's names, and prove the
specified properties about them.

Modelling conventions:
* Python `ast` statement nodes are the inductive `Stmt`; only the
  constructors the code dispatches on (`FunctionDef`, `ClassDef`,
  `AsyncFunctionDef`) are distinguished, every other statement is
  `otherStmt`.
* Decorator expressions are the inductive `DecExpr`; only the shapes the
  code inspects (`Name`, `Attribute`, `Call`) are distinguished.
* `ast.get_docstring` results are modelled as a `String` field, with `""`
  standing for "no docstring": every use in the source tests the result
  only for truthiness (`if module_docstring:`) or coalesces `None` to `""`
  (`ast.get_docstring(func_node) or ""`), where `None` and `""` coincide.
* `process_function` falls off the end and returns Python `None` when the
  decorator check fails; every caller (`process_elem` pass-through, then
  `if sub_text:` / `if result:`) tests the value only for truthiness, so
  the model returns `""` there, which is observationally identical.
* Reading a file and `ast.parse` are external collaborators that may
  raise; a file enters the model as `Except String PyModule`: `.error e`
  is a raised read/parse exception with message `e`.
-/

namespace DocstringWalker

/-- Decorator expressions, the fragment of `ast.expr` that
`has_decorator_factory` dispatches on: `ast.Name(id)`,
`ast.Attribute(value, attr)`, `ast.Call(func, args)`, anything else. -/
inductive DecExpr where
  | name (id : String)
  | attrExpr (value : DecExpr) (attr : String)
  | call (func : DecExpr) (args : List DecExpr)
  | otherExpr
deriving Repr

/-- Statement nodes, the fragment of `ast.stmt` the walker dispatches on:
`ast.FunctionDef`, `ast.AsyncFunctionDef`, `ast.ClassDef` (each with a
name, a decorator list, a docstring — `""` when absent — and a body), and
`otherStmt` for every other statement kind. -/
inductive Stmt where
  | functionDef (name : String) (decorator_list : List DecExpr)
      (docstring : String) (body : List Stmt)
  | asyncFunctionDef (name : String) (decorator_list : List DecExpr)
      (docstring : String) (body : List Stmt)
  | classDef (name : String) (decorator_list : List DecExpr)
      (docstring : String) (body : List Stmt)
  | otherStmt
deriving Repr

/-- A parsed module (`ast.Module`): its docstring (`""` when absent, per
the conventions above) and its body. -/
structure PyModule where
  docstring : String
  body : List Stmt
deriving Repr

/-- The output document: `Document(text=..., metadata={"file_name": ...})`
with the metadata dict modelled by its single key. -/
structure Document where
  text : String
  file_name : String
deriving Repr

/-- One `log.warning("Failed to parse file %s. Skipping. Error: %s", ...)`
call, recorded as the interpolated path and error message. -/
structure Warning where
  path : String
  message : String
deriving Repr

/-- `has_decorator_factory(func_node, decorator_factory)` (base.py
218-224): scans `func_node.decorator_list` for an `ast.Call` whose `func`
is an `ast.Name` with `id == decorator_factory`.  The loop with early
`return True` is `List.any`. -/
def has_decorator_factory (decorator_list : List DecExpr)
    (decorator_factory : String) : Bool :=
  decorator_list.any fun decorator =>
    match decorator with
    | DecExpr.call (DecExpr.name id) _ => id == decorator_factory
    | _ => false

/-- `module_has_decorator_factory(module, decorator_factory)` (base.py
226-233): iterates `module.body`; a `ClassDef` child is checked
recursively, a `FunctionDef` child is checked with
`has_decorator_factory`; the short-circuiting loop is the `||` chain.
The `module` argument is only read through `.body`, so the model takes
the body list. -/
def module_has_decorator_factory : List Stmt → String → Bool
  | [], _ => false
  | Stmt.classDef _ _ _ b :: rest, decorator_factory =>
      module_has_decorator_factory b decorator_factory
        || module_has_decorator_factory rest decorator_factory
  | Stmt.functionDef _ decs _ _ :: rest, decorator_factory =>
      has_decorator_factory decs decorator_factory
        || module_has_decorator_factory rest decorator_factory
  | _ :: rest, decorator_factory =>
      module_has_decorator_factory rest decorator_factory

/-- Python `sep.join(l)` (used as `"\n".join(sub_texts)`). -/
def joinStrings (sep : String) : List String → String
  | [] => ""
  | [s] => s
  | s :: rest => s ++ sep ++ joinStrings sep rest

/-- `process_function(func_node, parent_node)` (base.py 175-195): when the
decorator check passes, returns `f"\nFunction: {func_name}\n{func_docstring}"`
with the docstring coalesced to `""`; otherwise Python falls off the end
and returns `None`, modelled as `""` (see conventions).  `parent_node` is
unused in the source; the model takes the fields the body reads. -/
def process_function (func_name : String) (decorator_list : List DecExpr)
    (func_docstring : String) : String :=
  if has_decorator_factory decorator_list "register_tool" then
    "\nFunction: " ++ func_name ++ "\n" ++ func_docstring
  else
    ""

mutual

/-- `process_elem(elem, parent_node)` (base.py 197-216): dispatch on the
node type — `FunctionDef` goes to `process_function`, `ClassDef` goes to
`process_class` (inlined here as the join over `processBodyCollect` to
close the mutual recursion; `process_class` below is definitionally this
branch), anything else returns `""`. -/
def process_elem : Stmt → String → String
  | Stmt.functionDef n decs doc _, _ => process_function n decs doc
  | Stmt.classDef n _ _ b, _ => joinStrings "\n" (processBodyCollect b n)
  | Stmt.asyncFunctionDef _ _ _ _, _ => ""
  | Stmt.otherStmt, _ => ""

/-- The `sub_texts` accumulation loop of `process_class` (base.py
168-172): `process_elem(elem, class_node.name)` for each body element,
keeping truthy (non-empty) results in order. -/
def processBodyCollect : List Stmt → String → List String
  | [], _ => []
  | elem :: rest, parent =>
      if process_elem elem parent = "" then processBodyCollect rest parent
      else process_elem elem parent :: processBodyCollect rest parent

end

/-- `process_class(class_node, parent_node)` (base.py 150-173): joins the
non-empty `process_elem` results of the direct body elements, each called
with the class's own name as parent.  `parent_node` is unused in the
source. -/
def process_class (class_name : String) (body : List Stmt) : String :=
  joinStrings "\n" (processBodyCollect body class_name)

/-- Membership of a node's type in `TYPES_TO_PROCESS = {ast.FunctionDef,
ast.ClassDef}` (base.py 11), the `type(elem) in TYPES_TO_PROCESS` test of
`parse_module`. -/
def isTypeToProcess : Stmt → Bool
  | Stmt.functionDef _ _ _ _ => true
  | Stmt.classDef _ _ _ _ => true
  | _ => false

/-- The `sub_texts` accumulation loop of `parse_module` (base.py
139-144): only elements whose type is in `TYPES_TO_PROCESS` are handed to
`process_elem`, truthy results are kept in order. -/
def collectTop : List Stmt → String → List String
  | [], _ => []
  | elem :: rest, module_name =>
      if isTypeToProcess elem then
        if process_elem elem module_name = "" then collectTop rest module_name
        else process_elem elem module_name :: collectTop rest module_name
      else collectTop rest module_name

/-- Helper for `basename`: the characters after the last `/`. -/
def basenameAux : List Char → List Char → List Char
  | [], acc => acc.reverse
  | c :: cs, acc => if c = '/' then basenameAux cs [] else basenameAux cs (c :: acc)

/-- `os.path.basename` on POSIX (external collaborator used by
`parse_module`): the component after the last `/`. -/
def basename (path : String) : String :=
  String.mk (basenameAux path.data [])

/-- `parse_module(module_name, path)` (base.py 114-147).  The read+parse
collaborators enter as `parsed : Except String PyModule`; a raised
exception (`.error`) is not caught and propagates.  Otherwise: gate on
`module_has_decorator_factory(module, "register_tool")` returning `None`
(here `.ok none`) when it fails; else build
`f"Module: {module_name} \n"`, append
`f"Docstring: {module_docstring} \n"` only when the docstring is truthy,
append the newline-join of the collected top-level fragments, and return
the `Document` with `file_name = basename(path)`. -/
def parse_module (module_name : String) (parsed : Except String PyModule)
    (path : String) : Except String (Option Document) :=
  match parsed with
  | Except.error e => Except.error e
  | Except.ok mdl =>
      if !module_has_decorator_factory mdl.body "register_tool" then
        Except.ok none
      else
        let t1 := "Module: " ++ module_name ++ " \n"
        let t2 := if mdl.docstring ≠ "" then
            t1 ++ "Docstring: " ++ mdl.docstring ++ " \n"
          else t1
        Except.ok (some
          { text := t2 ++ joinStrings "\n" (collectTop mdl.body module_name)
            file_name := basename path })

/-- One file handed to `process_directory` by the `os.walk` collaborator:
the directory `root`, the bare file name, and the result of the
read+parse collaborators for its content. -/
structure FileEntry where
  root : String
  file : String
  parsed : Except String PyModule

/-- `os.path.join(root, file)` for the relative names `os.walk` yields. -/
def joinPath (root file : String) : String :=
  if root = "" then file else root ++ "/" ++ file

/-- Python `s.endswith(pat)`. -/
def strEndsWith (s pat : String) : Bool :=
  pat.data.isSuffixOf s.data

/-- Fuel-driven worker for `pyReplace`; the fuel (the length of the
scanned list) makes the left-to-right scan structurally recursive and
bounds it, and is never exhausted for a non-empty pattern. -/
def replaceAllAux (pat repl : List Char) : Nat → List Char → List Char
  | 0, s => s
  | _ + 1, [] => []
  | fuel + 1, c :: cs =>
      if pat.isPrefixOf (c :: cs) then
        repl ++ replaceAllAux pat repl fuel ((c :: cs).drop pat.length)
      else c :: replaceAllAux pat repl fuel cs

/-- Python `s.replace(pat, repl)` for a non-empty `pat`: replace every
non-overlapping occurrence, scanning left to right (the source only calls
it as `file.replace(".py", "")`). -/
def pyReplace (s pat repl : String) : String :=
  String.mk (replaceAllAux pat.data repl.data s.data.length s.data)

/-- Whether `process_directory`'s filter lets a file through:
`file.endswith(".py")` and not (`skip_initpy` and
`file == "__init__.py"`). -/
def fileIsProcessed (file : String) (skip_initpy : Bool) : Bool :=
  strEndsWith file ".py" && !(skip_initpy && file == "__init__.py")

/-- `process_directory(code_dir, skip_initpy, fail_on_malformed_files)`
(base.py 52-95), over the file list produced by the `os.walk`
collaborator.  Per kept file: `module_name = file.replace(".py", "")`,
`module_path = os.path.join(root, file)`, then `parse_module`; a raised
exception is re-raised when `fail_on_malformed_files` (aborting the
batch, modelled as `.error`), otherwise a warning with the path and
message is logged and the loop continues; non-`None` documents are
appended in order. -/
def process_directory (skip_initpy fail_on_malformed_files : Bool) :
    List FileEntry → Except String (List Document × List Warning)
  | [] => Except.ok ([], [])
  | fe :: rest =>
      if fileIsProcessed fe.file skip_initpy then
        let module_name := pyReplace fe.file ".py" ""
        let module_path := joinPath fe.root fe.file
        match parse_module module_name fe.parsed module_path with
        | Except.error e =>
            if fail_on_malformed_files then Except.error e
            else
              match process_directory skip_initpy fail_on_malformed_files rest with
              | Except.error e2 => Except.error e2
              | Except.ok (docs, warns) =>
                  Except.ok (docs, ⟨module_path, e⟩ :: warns)
        | Except.ok none => process_directory skip_initpy fail_on_malformed_files rest
        | Except.ok (some doc) =>
            match process_directory skip_initpy fail_on_malformed_files rest with
            | Except.error e2 => Except.error e2
            | Except.ok (docs, warns) => Except.ok (doc :: docs, warns)
      else process_directory skip_initpy fail_on_malformed_files rest

/-- Spec-side description (§4.3 Class case): the non-empty `render`
results of the direct children, in body order, each rendered with the
class's name as parent. -/
def nonEmptyRenders (body : List Stmt) (parent : String) : List String :=
  (body.map fun e => process_elem e parent).filter fun r => r != ""

/-- Spec-side description (§4.4): the non-empty rendered fragments of
exactly the top-level Function and Class declarations, in body order. -/
def renderedTopFragments (body : List Stmt) (module_name : String) : List String :=
  ((body.filter isTypeToProcess).map fun e => process_elem e module_name).filter
    fun r => r != ""

/-- Spec-side description (§4.4) of the text of a qualifying module's
document: the header, the docstring line only when the docstring is
non-empty, then the newline-join of the top-level fragments. -/
def moduleTextSpec (module_name : String) (mdl : PyModule) : String :=
  (if mdl.docstring ≠ "" then
      "Module: " ++ module_name ++ " \n" ++ "Docstring: " ++ mdl.docstring ++ " \n"
    else "Module: " ++ module_name ++ " \n")
    ++ joinStrings "\n" (renderedTopFragments mdl.body module_name)

/-- `pat` occurs as a contiguous substring of `s`. -/
def strHasSubstr (s pat : String) : Prop :=
  pat.data <:+: s.data

/-! ### Helper lemmas -/

/-- A member of the joined list is a contiguous substring of the join. -/
theorem infix_joinStrings_of_mem {sep t : String} {l : List String}
    (h : t ∈ l) : t.data <:+: (joinStrings sep l).data := by
  induction l with
  | nil => cases h
  | cons s rest ih =>
    cases rest with
    | nil =>
      rw [List.mem_singleton] at h
      subst h
      exact List.infix_rfl
    | cons r rs =>
      rcases List.mem_cons.mp h with rfl | hmem
      · refine ⟨[], (sep ++ joinStrings sep (r :: rs)).data, ?_⟩
        simp [joinStrings, String.data_append]
      · obtain ⟨u, v, huv⟩ := ih hmem
        refine ⟨(s ++ sep).data ++ u, v, ?_⟩
        simp only [joinStrings, String.data_append, List.append_assoc, ← huv]

/-- An infix of a string is an infix of any right-extension of it. -/
theorem infix_data_append_left {pat : String} {s t : String}
    (h : pat.data <:+: t.data) : pat.data <:+: (s ++ t).data := by
  obtain ⟨u, v, huv⟩ := h
  exact ⟨s.data ++ u, v, by simp [String.data_append, ← huv, List.append_assoc]⟩

/-- `processBodyCollect` is the non-empty renders of the body, in order. -/
theorem processBodyCollect_eq_nonEmptyRenders (body : List Stmt) (parent : String) :
    processBodyCollect body parent = nonEmptyRenders body parent := by
  induction body with
  | nil => simp [processBodyCollect, nonEmptyRenders]
  | cons e rest ih =>
    by_cases he : process_elem e parent = ""
    · simp [processBodyCollect, nonEmptyRenders, he, ih]
    · simp [processBodyCollect, nonEmptyRenders, he, ih]

/-- The `TYPES_TO_PROCESS` filter of `parse_module`'s loop is redundant:
the node kinds it removes are exactly those `process_elem` maps to `""`,
which the truthiness filter drops anyway. -/
theorem collectTop_eq_processBodyCollect (body : List Stmt) (module_name : String) :
    collectTop body module_name = processBodyCollect body module_name := by
  induction body with
  | nil => simp [collectTop, processBodyCollect]
  | cons e rest ih =>
    cases e with
    | functionDef n decs doc b =>
      simp only [collectTop, processBodyCollect, isTypeToProcess, if_true, ih]
    | classDef n decs doc b =>
      simp only [collectTop, processBodyCollect, isTypeToProcess, if_true, ih]
    | asyncFunctionDef n decs doc b =>
      simp [collectTop, processBodyCollect, isTypeToProcess, process_elem, ih]
    | otherStmt =>
      simp [collectTop, processBodyCollect, isTypeToProcess, process_elem, ih]

/-- `collectTop` matches the spec-side description of the top-level
fragments. -/
theorem collectTop_eq_renderedTopFragments (body : List Stmt) (module_name : String) :
    collectTop body module_name = renderedTopFragments body module_name := by
  induction body with
  | nil => simp [collectTop, renderedTopFragments]
  | cons e rest ih =>
    by_cases ht : isTypeToProcess e = true
    · by_cases he : process_elem e module_name = ""
      · simp only [collectTop, ht, if_true, if_pos he]
        rw [ih]
        simp [renderedTopFragments, ht, he]
      · simp only [collectTop, ht, if_true, if_neg he]
        rw [ih]
        simp [renderedTopFragments, ht, he]
    · have he : process_elem e module_name = "" := by
        cases e with
        | functionDef n decs doc b => simp [isTypeToProcess] at ht
        | classDef n decs doc b => simp [isTypeToProcess] at ht
        | asyncFunctionDef n decs doc b => simp [process_elem]
        | otherStmt => simp [process_elem]
      simp only [collectTop, if_neg ht]
      rw [ih]
      simp [renderedTopFragments, ht]

/-- The marker test, characterized: some decorator is a call whose callee
is a bare name equal to the factory name. -/
theorem has_decorator_factory_iff (decs : List DecExpr) (f : String) :
    has_decorator_factory decs f = true ↔
      ∃ d ∈ decs, ∃ args, d = DecExpr.call (DecExpr.name f) args := by
  simp only [has_decorator_factory, List.any_eq_true]
  constructor
  · rintro ⟨d, hd, hm⟩
    cases d with
    | name id => simp at hm
    | attrExpr v a => simp at hm
    | otherExpr => simp at hm
    | call fn args =>
      cases fn with
      | name id =>
        have hid : id = f := by simpa using hm
        exact ⟨_, hd, args, by rw [hid]⟩
      | attrExpr v a => simp at hm
      | call fn2 args2 => simp at hm
      | otherExpr => simp at hm
  · rintro ⟨d, hd, args, rfl⟩
    exact ⟨_, hd, by simp⟩

/-! ### Claim theorems -/

/-- C2: a function declaration whose decorator list contains no call to
the target factory name renders to the empty fragment, both through
`process_function` and through `process_elem` dispatch. -/
theorem claim2_unmarked_function_renders_empty (n : String) (decs : List DecExpr)
    (doc : String) (b : List Stmt) (parent : String)
    (h : ∀ d ∈ decs, ∀ args, d ≠ DecExpr.call (DecExpr.name "register_tool") args) :
    process_function n decs doc = ""
    ∧ process_elem (Stmt.functionDef n decs doc b) parent = "" := by
  have hfalse : has_decorator_factory decs "register_tool" = false := by
    rw [Bool.eq_false_iff]
    intro htrue
    obtain ⟨d, hd, args, rfl⟩ := (has_decorator_factory_iff decs "register_tool").mp htrue
    exact h _ hd args rfl
  constructor
  · simp [process_function, hfalse]
  · simp [process_elem, process_function, hfalse]

/-- C2 witness: the unmarked top-level function `g` of scenario A
renders to the empty fragment. -/
theorem claim2_witness :
    process_function "g" [] "" = ""
    ∧ process_elem (Stmt.functionDef "g" [] "" []) "mod" = "" :=
  claim2_unmarked_function_renders_empty "g" [] "" [] "mod"
    (by intro d hd; cases hd)

/-- C5: a function declaration whose decorator list contains a call to
`register_tool` renders to exactly a newline, then `Function: {name}`,
then a newline, then its docstring (the empty string when absent). -/
theorem claim5_marked_function_render (n : String) (decs : List DecExpr)
    (doc : String) (b : List Stmt) (parent : String)
    (h : ∃ d ∈ decs, ∃ args, d = DecExpr.call (DecExpr.name "register_tool") args) :
    process_function n decs doc = "\n" ++ "Function: " ++ n ++ "\n" ++ doc
    ∧ process_elem (Stmt.functionDef n decs doc b) parent
        = "\n" ++ "Function: " ++ n ++ "\n" ++ doc := by
  have htrue : has_decorator_factory decs "register_tool" = true :=
    (has_decorator_factory_iff decs "register_tool").mpr h
  have hfun : process_function n decs doc = "\n" ++ "Function: " ++ n ++ "\n" ++ doc := by
    rw [process_function, if_pos htrue]
    apply String.ext
    simp [String.data_append]
  exact ⟨hfun, by rw [process_elem]; exact hfun⟩

/-- C5 witness: the marked function `f` of scenario A renders to
`"\nFunction: f\ndoes f"`. -/
theorem claim5_witness :
    process_function "f" [DecExpr.call (DecExpr.name "register_tool") []] "does f"
      = "\n" ++ "Function: " ++ "f" ++ "\n" ++ "does f"
    ∧ process_elem (Stmt.functionDef "f"
        [DecExpr.call (DecExpr.name "register_tool") []] "does f" []) "mod"
      = "\n" ++ "Function: " ++ "f" ++ "\n" ++ "does f" :=
  claim5_marked_function_render "f" _ "does f" [] "mod"
    ⟨_, List.mem_singleton_self _, [], rfl⟩

/-- C6: `has_decorator_factory` is true iff some decorator is a call
expression whose callee is a bare name equal to the factory name; a bare
name without a call, an attribute access, a call on an attribute, and a
call with a different callee name all fail. -/
theorem claim6_marker_detector_characterization :
    (∀ decs f, has_decorator_factory decs f = true ↔
        ∃ d ∈ decs, ∃ args, d = DecExpr.call (DecExpr.name f) args)
    ∧ (∀ f, has_decorator_factory [DecExpr.name f] f = false)
    ∧ (∀ f v a args, has_decorator_factory [DecExpr.attrExpr v a] f = false
        ∧ has_decorator_factory [DecExpr.call (DecExpr.attrExpr v a) args] f = false)
    ∧ (∀ f g args, g ≠ f →
        has_decorator_factory [DecExpr.call (DecExpr.name g) args] f = false) := by
  refine ⟨has_decorator_factory_iff, ?_, ?_, ?_⟩
  · intro f; simp [has_decorator_factory]
  · intro f v a args; exact ⟨by simp [has_decorator_factory], by simp [has_decorator_factory]⟩
  · intro f g args hne; simp [has_decorator_factory, hne]

/-- C6 witness: a call to a different name than the target factory does
not count as the marker. -/
theorem claim6_witness :
    has_decorator_factory [DecExpr.call (DecExpr.name "other_tool") []] "register_tool"
      = false :=
  claim6_marker_detector_characterization.2.2.2 "register_tool" "other_tool" []
    (by decide)

/-- C4: a class declaration renders to the newline-join of the non-empty
renders of its direct children in body order — independently of the
class's own decorator list, which does not occur in the right-hand side —
and renders to the empty string when every child renders empty. -/
theorem claim4_class_render (n : String) (decs : List DecExpr) (doc : String)
    (body : List Stmt) (parent : String) :
    process_elem (Stmt.classDef n decs doc body) parent
        = joinStrings "\n" (nonEmptyRenders body n)
    ∧ process_class n body = joinStrings "\n" (nonEmptyRenders body n)
    ∧ ((∀ e ∈ body, process_elem e n = "") →
        process_elem (Stmt.classDef n decs doc body) parent = "") := by
  have hcollect : processBodyCollect body n = nonEmptyRenders body n :=
    processBodyCollect_eq_nonEmptyRenders body n
  refine ⟨by rw [process_elem, hcollect], by rw [process_class, hcollect], ?_⟩
  intro hall
  rw [process_elem, hcollect]
  have : nonEmptyRenders body n = [] := by
    rw [nonEmptyRenders, List.filter_eq_nil_iff]
    intro r hr
    obtain ⟨e, he, rfl⟩ := List.mem_map.mp hr
    simp [hall e he]
  rw [this]
  rfl

/-- C4 witness: a class whose children all render empty renders to the
empty string. -/
theorem claim4_witness :
    process_elem (Stmt.classDef "C" [] "" [Stmt.otherStmt]) "mod" = "" :=
  (claim4_class_render "C" [] "" [Stmt.otherStmt] "mod").2.2
    (by intro e he; rw [List.mem_singleton.mp he]; rw [process_elem])

/-- C3: the containment checker returns false on an empty body; it is
true iff some child is a class whose body recursively contains the marker
or a function that itself carries it; the body of a function child is
never inspected; a marker three classes deep is found; a marker only
inside a function nested in a function is not. -/
theorem claim3_contains_marker_characterization :
    (∀ f, module_has_decorator_factory [] f = false)
    ∧ (∀ body f, module_has_decorator_factory body f = true ↔
        ∃ s ∈ body,
          (∃ n d ds b, s = Stmt.classDef n d ds b
              ∧ module_has_decorator_factory b f = true)
          ∨ (∃ n d ds b, s = Stmt.functionDef n d ds b
              ∧ has_decorator_factory d f = true))
    ∧ (∀ n d ds b f, module_has_decorator_factory [Stmt.functionDef n d ds b] f
        = has_decorator_factory d f)
    ∧ module_has_decorator_factory
        [Stmt.classDef "A" [] "" [Stmt.classDef "B" [] ""
          [Stmt.classDef "C" [] "" [Stmt.functionDef "f"
            [DecExpr.call (DecExpr.name "register_tool") []] "" []]]]]
        "register_tool" = true
    ∧ module_has_decorator_factory
        [Stmt.functionDef "outer" [] "" [Stmt.functionDef "inner"
          [DecExpr.call (DecExpr.name "register_tool") []] "" []]]
        "register_tool" = false := by
  refine ⟨?_, ?_, ?_, ?_, ?_⟩
  · intro f; rw [module_has_decorator_factory]
  · intro body f
    induction body with
    | nil => simp [module_has_decorator_factory]
    | cons s rest ih =>
      cases s with
      | classDef n d ds b =>
        rw [module_has_decorator_factory]
        simp only [Bool.or_eq_true, ih, List.mem_cons, exists_eq_or_imp]
        constructor
        · rintro (hb | ⟨t, ht, hcase⟩)
          · exact Or.inl (Or.inl ⟨n, d, ds, b, rfl, hb⟩)
          · exact Or.inr ⟨t, ht, hcase⟩
        · rintro (⟨⟨n2, d2, ds2, b2, heq, hb⟩ | ⟨n2, d2, ds2, b2, heq, hb⟩⟩ | ⟨t, ht, hcase⟩)
          · cases heq; exact Or.inl hb
          · cases heq
          · exact Or.inr ⟨t, ht, hcase⟩
      | functionDef n d ds b =>
        rw [module_has_decorator_factory]
        simp only [Bool.or_eq_true, ih, List.mem_cons, exists_eq_or_imp]
        constructor
        · rintro (hd | ⟨t, ht, hcase⟩)
          · exact Or.inl (Or.inr ⟨n, d, ds, b, rfl, hd⟩)
          · exact Or.inr ⟨t, ht, hcase⟩
        · rintro (⟨⟨n2, d2, ds2, b2, heq, hb⟩ | ⟨n2, d2, ds2, b2, heq, hb⟩⟩ | ⟨t, ht, hcase⟩)
          · cases heq
          · cases heq; exact Or.inl hb
          · exact Or.inr ⟨t, ht, hcase⟩
      | asyncFunctionDef n d ds b =>
        have heq : module_has_decorator_factory (Stmt.asyncFunctionDef n d ds b :: rest) f
            = module_has_decorator_factory rest f := by
          rw [module_has_decorator_factory] <;>
            exact fun _ _ _ _ h => Stmt.noConfusion h
        rw [heq]
        simp only [ih, List.mem_cons, exists_eq_or_imp]
        constructor
        · rintro ⟨t, ht, hcase⟩
          exact Or.inr ⟨t, ht, hcase⟩
        · rintro (⟨⟨n2, d2, ds2, b2, heq, hb⟩ | ⟨n2, d2, ds2, b2, heq, hb⟩⟩ | ⟨t, ht, hcase⟩)
          · cases heq
          · cases heq
          · exact ⟨t, ht, hcase⟩
      | otherStmt =>
        have heq : module_has_decorator_factory (Stmt.otherStmt :: rest) f
            = module_has_decorator_factory rest f := by
          rw [module_has_decorator_factory] <;>
            exact fun _ _ _ _ h => Stmt.noConfusion h
        rw [heq]
        simp only [ih, List.mem_cons, exists_eq_or_imp]
        constructor
        · rintro ⟨t, ht, hcase⟩
          exact Or.inr ⟨t, ht, hcase⟩
        · rintro (⟨⟨n2, d2, ds2, b2, heq, hb⟩ | ⟨n2, d2, ds2, b2, heq, hb⟩⟩ | ⟨t, ht, hcase⟩)
          · cases heq
          · cases heq
          · exact ⟨t, ht, hcase⟩
  · intro n d ds b f
    rw [module_has_decorator_factory, module_has_decorator_factory]
    simp
  · simp [module_has_decorator_factory, has_decorator_factory]
  · simp [module_has_decorator_factory, has_decorator_factory]

/-- C7: a well-formed module with no marked declaration anywhere per the
containment rule makes `parse_module` return `None` — an `.ok` outcome,
not an exception. -/
theorem claim7_no_marker_returns_none (module_name : String) (mdl : PyModule)
    (path : String)
    (h : module_has_decorator_factory mdl.body "register_tool" = false) :
    parse_module module_name (Except.ok mdl) path = Except.ok none := by
  simp [parse_module, h]

/-- C7 witness: a module holding only one unmarked function yields no
document. -/
theorem claim7_witness :
    parse_module "mod" (Except.ok ⟨"", [Stmt.functionDef "g" [] "" []]⟩) "mod.py"
      = Except.ok none :=
  claim7_no_marker_returns_none "mod" ⟨"", [Stmt.functionDef "g" [] "" []]⟩ "mod.py"
    (by simp [module_has_decorator_factory, has_decorator_factory])

/-- C1: for a qualifying module, `parse_module` returns the document whose
text is the module header, the docstring line only when the docstring is
non-empty, then the newline-join of the non-empty fragments of exactly the
top-level Function and Class declarations in body order; in particular
scenario A produces exactly
`"Module: mod \nDocstring: desc \n\nFunction: f\ndoes f"`. -/
theorem claim1_qualifying_module_text (module_name : String) (mdl : PyModule)
    (path : String)
    (h : module_has_decorator_factory mdl.body "register_tool" = true) :
    parse_module module_name (Except.ok mdl) path
      = Except.ok (some { text := moduleTextSpec module_name mdl
                          file_name := basename path })
    ∧ parse_module "mod" (Except.ok ⟨"desc",
        [Stmt.functionDef "f" [DecExpr.call (DecExpr.name "register_tool") []] "does f" [],
         Stmt.functionDef "g" [] "" []]⟩) "mod.py"
      = Except.ok (some { text := "Module: mod \nDocstring: desc \n\nFunction: f\ndoes f"
                          file_name := "mod.py" }) := by
  constructor
  · rw [parse_module]
    simp only [h, Bool.not_true, Bool.false_eq_true, if_false]
    rw [moduleTextSpec, ← collectTop_eq_renderedTopFragments]
  · simp [parse_module, module_has_decorator_factory, has_decorator_factory,
      collectTop, isTypeToProcess, process_elem, process_function, joinStrings,
      basename, basenameAux]

/-- C1 witness: scenario A, through the general statement. -/
theorem claim1_witness :
    parse_module "mod" (Except.ok ⟨"desc",
        [Stmt.functionDef "f" [DecExpr.call (DecExpr.name "register_tool") []] "does f" [],
         Stmt.functionDef "g" [] "" []]⟩) "mod.py"
      = Except.ok (some { text := "Module: mod \nDocstring: desc \n\nFunction: f\ndoes f"
                          file_name := "mod.py" }) :=
  (claim1_qualifying_module_text "mod"
      ⟨"desc",
        [Stmt.functionDef "f" [DecExpr.call (DecExpr.name "register_tool") []] "does f" [],
         Stmt.functionDef "g" [] "" []]⟩ "mod.py"
      (by simp [module_has_decorator_factory, has_decorator_factory])).2

/-- C10: async function declarations are invisible end to end — the
containment checker skips them, the renderer maps them to the empty
fragment, the top-level type filter excludes them, and a module whose only
(marked) declaration is an async function produces no document. -/
theorem claim10_async_functions_invisible :
    (∀ n d ds b rest f,
        module_has_decorator_factory (Stmt.asyncFunctionDef n d ds b :: rest) f
          = module_has_decorator_factory rest f)
    ∧ (∀ n d ds b parent, process_elem (Stmt.asyncFunctionDef n d ds b) parent = "")
    ∧ (∀ n d ds b, isTypeToProcess (Stmt.asyncFunctionDef n d ds b) = false)
    ∧ parse_module "mod" (Except.ok ⟨"",
        [Stmt.asyncFunctionDef "f" [DecExpr.call (DecExpr.name "register_tool") []] "x" []]⟩)
        "mod.py" = Except.ok none := by
  refine ⟨?_, ?_, ?_, ?_⟩
  · intro n d ds b rest f
    rw [module_has_decorator_factory] <;>
      exact fun _ _ _ _ h => Stmt.noConfusion h
  · intro n d ds b parent
    rw [process_elem]
  · intro n d ds b
    rfl
  · simp [parse_module, module_has_decorator_factory, has_decorator_factory]

/-- A marked function's fragment starts with a newline and then the
`Function: ` heading. -/
theorem function_heading_occurs (n doc : String) :
    "Function: ".data <:+: ("\nFunction: " ++ n ++ "\n" ++ doc).data := by
  refine ⟨['\n'], (n ++ "\n" ++ doc).data, ?_⟩
  have hlit : "\nFunction: ".data = '\n' :: "Function: ".data := rfl
  simp [String.data_append, hlit, List.append_assoc]

/-- A string with a non-empty substring is non-empty. -/
theorem ne_empty_of_heading {s : String}
    (h : "Function: ".data <:+: s.data) : s ≠ "" := by
  intro hs
  subst hs
  have : "Function: ".data = ([] : List Char) := List.eq_nil_of_infix_nil h
  simp at this

/-- Whenever the containment gate accepts a body, the collected fragments
of that body contain one holding the `Function: ` heading: the gate only
looks through class nesting, and the renderer recurses through the same
class nesting. -/
theorem gate_gives_fragment (body : List Stmt) (f : String) :
    ∀ parent, f = "register_tool" →
      module_has_decorator_factory body f = true →
      ∃ t ∈ processBodyCollect body parent, "Function: ".data <:+: t.data := by
  induction body, f using module_has_decorator_factory.induct with
  | case1 f =>
    intro parent _ h
    rw [module_has_decorator_factory] at h
    exact absurd h (by simp)
  | case2 n d ds b rest f ihb ihrest =>
    intro parent hf h
    rw [module_has_decorator_factory, Bool.or_eq_true] at h
    rcases h with hb | hrest
    · obtain ⟨t, ht, hinf⟩ := ihb n hf hb
      have hjoin : "Function: ".data
          <:+: (joinStrings "\n" (processBodyCollect b n)).data :=
        hinf.trans (infix_joinStrings_of_mem ht)
      have helem : process_elem (Stmt.classDef n d ds b) parent
          = joinStrings "\n" (processBodyCollect b n) := by rw [process_elem]
      have hne : process_elem (Stmt.classDef n d ds b) parent ≠ "" := by
        rw [helem]; exact ne_empty_of_heading hjoin
      refine ⟨process_elem (Stmt.classDef n d ds b) parent, ?_, by rw [helem]; exact hjoin⟩
      rw [processBodyCollect, if_neg hne]
      exact List.mem_cons_self _ _
    · obtain ⟨t, ht, hinf⟩ := ihrest parent hf hrest
      refine ⟨t, ?_, hinf⟩
      rw [processBodyCollect]
      split
      · exact ht
      · exact List.mem_cons_of_mem _ ht
  | case3 n decs ds b rest f ihrest =>
    intro parent hf h
    rw [module_has_decorator_factory, Bool.or_eq_true] at h
    rcases h with hdec | hrest
    · subst hf
      have helem : process_elem (Stmt.functionDef n decs ds b) parent
          = "\nFunction: " ++ n ++ "\n" ++ ds := by
        rw [process_elem, process_function, if_pos hdec]
      refine ⟨process_elem (Stmt.functionDef n decs ds b) parent, ?_, ?_⟩
      · have hne : process_elem (Stmt.functionDef n decs ds b) parent ≠ "" := by
          rw [helem]
          exact ne_empty_of_heading (function_heading_occurs n ds)
        rw [processBodyCollect, if_neg hne]
        exact List.mem_cons_self _ _
      · rw [helem]
        exact function_heading_occurs n ds
    · obtain ⟨t, ht, hinf⟩ := ihrest parent hf hrest
      refine ⟨t, ?_, hinf⟩
      rw [processBodyCollect]
      split
      · exact ht
      · exact List.mem_cons_of_mem _ ht
  | case4 head rest f hnotclass hnotfun ihrest =>
    intro parent hf h
    have hgate : module_has_decorator_factory (head :: rest) f
        = module_has_decorator_factory rest f := by
      cases head with
      | functionDef n d ds b => exact absurd rfl (hnotfun n d ds b)
      | classDef n d ds b => exact absurd rfl (hnotclass n d ds b)
      | asyncFunctionDef n d ds b =>
        rw [module_has_decorator_factory] <;>
          exact fun _ _ _ _ he => Stmt.noConfusion he
      | otherStmt =>
        rw [module_has_decorator_factory] <;>
          exact fun _ _ _ _ he => Stmt.noConfusion he
    rw [hgate] at h
    obtain ⟨t, ht, hinf⟩ := ihrest parent hf h
    have hhead : process_elem head parent = "" := by
      cases head with
      | functionDef n d ds b => exact absurd rfl (hnotfun n d ds b)
      | classDef n d ds b => exact absurd rfl (hnotclass n d ds b)
      | asyncFunctionDef n d ds b => rw [process_elem]
      | otherStmt => rw [process_elem]
    refine ⟨t, ?_, hinf⟩
    rw [processBodyCollect, if_pos hhead]
    exact ht

/-- C9: whenever `parse_module` returns a document, its text contains the
`Function: ` heading: the qualification gate guarantees a marked function
reachable through class nesting, and the renderer reaches it too. -/
theorem claim9_document_has_function_fragment (module_name : String)
    (mdl : PyModule) (path : String) (doc : Document)
    (h : parse_module module_name (Except.ok mdl) path = Except.ok (some doc)) :
    strHasSubstr doc.text "Function: " := by
  rw [parse_module] at h
  by_cases hg : module_has_decorator_factory mdl.body "register_tool" = true
  · simp only [hg, Bool.not_true, Bool.false_eq_true, if_false, Except.ok.injEq,
      Option.some.injEq] at h
    obtain ⟨t, ht, hinf⟩ :=
      gate_gives_fragment mdl.body "register_tool" module_name rfl hg
    rw [← collectTop_eq_processBodyCollect] at ht
    have hjoin : "Function: ".data
        <:+: (joinStrings "\n" (collectTop mdl.body module_name)).data :=
      hinf.trans (infix_joinStrings_of_mem ht)
    rw [← h]
    exact infix_data_append_left hjoin
  · rw [Bool.not_eq_true] at hg
    simp [hg] at h

/-- C9 witness: scenario A's document text contains the heading. -/
theorem claim9_witness :
    strHasSubstr "Module: mod \nDocstring: desc \n\nFunction: f\ndoes f" "Function: " :=
  claim9_document_has_function_fragment "mod"
    ⟨"desc",
      [Stmt.functionDef "f" [DecExpr.call (DecExpr.name "register_tool") []] "does f" [],
       Stmt.functionDef "g" [] "" []]⟩ "mod.py"
    ⟨"Module: mod \nDocstring: desc \n\nFunction: f\ndoes f", "mod.py"⟩
    (by simp [parse_module, module_has_decorator_factory, has_decorator_factory,
        collectTop, isTypeToProcess, process_elem, process_function, joinStrings,
        basename, basenameAux])

/-- `parse_module` on a successfully read and parsed module never raises. -/
theorem parse_module_ok_no_error (module_name : String) (mdl : PyModule)
    (path : String) :
    ∃ r, parse_module module_name (Except.ok mdl) path = Except.ok r := by
  rw [parse_module]
  split
  · exact ⟨none, rfl⟩
  · exact ⟨_, rfl⟩

/-- Under the lenient policy the batch always completes with a result. -/
theorem process_directory_lenient_ok (skip : Bool) (files : List FileEntry) :
    ∃ docs warns,
      process_directory skip false files = Except.ok (docs, warns) := by
  induction files with
  | nil => exact ⟨[], [], rfl⟩
  | cons fe rest ih =>
    obtain ⟨docs, warns, hp⟩ := ih
    by_cases hproc : fileIsProcessed fe.file skip = true
    · cases hpm : parse_module (pyReplace fe.file ".py" "") fe.parsed
          (joinPath fe.root fe.file) with
      | error e =>
        exact ⟨docs, ⟨joinPath fe.root fe.file, e⟩ :: warns,
          by simp [process_directory, hproc, hpm, hp]⟩
      | ok od =>
        cases od with
        | none => exact ⟨docs, warns, by simp [process_directory, hproc, hpm, hp]⟩
        | some doc =>
          exact ⟨doc :: docs, warns, by simp [process_directory, hproc, hpm, hp]⟩
    · exact ⟨docs, warns, by simp [process_directory, hproc, hp]⟩

/-- Under the strict policy the first error raised for a processed file
aborts the whole batch with that error. -/
theorem process_directory_strict_first_error (skip : Bool) (pre : List FileEntry)
    (fe : FileEntry) (rest : List FileEntry) (e : String)
    (hpre : ∀ g ∈ pre, fileIsProcessed g.file skip = true →
        ∀ e2, g.parsed ≠ Except.error e2)
    (hproc : fileIsProcessed fe.file skip = true)
    (herr : fe.parsed = Except.error e) :
    process_directory skip true (pre ++ fe :: rest) = Except.error e := by
  induction pre with
  | nil =>
    have hpm : parse_module (pyReplace fe.file ".py" "") fe.parsed
        (joinPath fe.root fe.file) = Except.error e := by
      rw [herr, parse_module]
    simp [process_directory, hproc, hpm]
  | cons g pre ih =>
    have hg := hpre g (List.mem_cons_self g pre)
    have ihres := ih fun x hx => hpre x (List.mem_cons_of_mem g hx)
    by_cases hgp : fileIsProcessed g.file skip = true
    · cases hgparsed : g.parsed with
      | error e2 => exact absurd hgparsed (hg hgp e2)
      | ok mdl =>
        obtain ⟨r, hr⟩ := parse_module_ok_no_error (pyReplace g.file ".py" "") mdl
          (joinPath g.root g.file)
        cases r with
        | none => simp [process_directory, hgp, hgparsed, hr, ihres]
        | some doc => simp [process_directory, hgp, hgparsed, hr, ihres]
    · simp [process_directory, hgp, ihres]

/-- Under the lenient policy a single failing file contributes exactly one
warning naming its path and error, and every other file is still
processed: the documents are those of the surrounding files. -/
theorem process_directory_lenient_skip (skip : Bool) (pre : List FileEntry)
    (fe : FileEntry) (rest : List FileEntry) (e : String)
    (docs1 warns1 docs2 warns2 : List _)
    (hproc : fileIsProcessed fe.file skip = true)
    (herr : fe.parsed = Except.error e)
    (h1 : process_directory skip false pre = Except.ok (docs1, warns1))
    (h2 : process_directory skip false rest = Except.ok (docs2, warns2)) :
    process_directory skip false (pre ++ fe :: rest)
      = Except.ok (docs1 ++ docs2,
          warns1 ++ ⟨joinPath fe.root fe.file, e⟩ :: warns2) := by
  induction pre generalizing docs1 warns1 with
  | nil =>
    rw [process_directory] at h1
    simp only [Except.ok.injEq, Prod.mk.injEq] at h1
    obtain ⟨rfl, rfl⟩ := h1
    have hpm : parse_module (pyReplace fe.file ".py" "") fe.parsed
        (joinPath fe.root fe.file) = Except.error e := by
      rw [herr, parse_module]
    simp [process_directory, hproc, hpm, h2]
  | cons g pre ih =>
    by_cases hgp : fileIsProcessed g.file skip = true
    · obtain ⟨d1, w1, hd1⟩ := process_directory_lenient_ok skip pre
      cases hpm2 : parse_module (pyReplace g.file ".py" "") g.parsed
          (joinPath g.root g.file) with
      | error e2 =>
        rw [process_directory] at h1
        simp [hgp, hpm2, hd1] at h1
        obtain ⟨rfl, rfl⟩ := h1
        have ihres := ih d1 w1 hd1
        simp [process_directory, hgp, hpm2, ihres]
      | ok od =>
        cases od with
        | none =>
          rw [process_directory] at h1
          simp [hgp, hpm2] at h1
          have ihres := ih docs1 warns1 h1
          simp [process_directory, hgp, hpm2, ihres]
        | some doc =>
          rw [process_directory] at h1
          simp [hgp, hpm2, hd1] at h1
          obtain ⟨rfl, rfl⟩ := h1
          have ihres := ih d1 w1 hd1
          simp [process_directory, hgp, hpm2, ihres]
    · rw [process_directory] at h1
      simp [hgp] at h1
      have ihres := ih docs1 warns1 h1
      simp [process_directory, hgp, ihres]

/-- C8: `parse_module` catches no read or parse error; `process_directory`
re-raises the first per-file error and aborts under the strict policy, and
under the lenient policy completes, records one warning naming the failing
file's path and error, and still processes every other file, so only that
one file's document is missing. -/
theorem claim8_error_policy :
    (∀ module_name e path,
        parse_module module_name (Except.error e) path = Except.error e)
    ∧ (∀ skip : Bool, ∀ pre fe rest e,
        (∀ g ∈ pre, fileIsProcessed g.file skip = true →
            ∀ e2, g.parsed ≠ Except.error e2) →
        fileIsProcessed fe.file skip = true →
        fe.parsed = Except.error e →
        process_directory skip true (pre ++ fe :: rest) = Except.error e)
    ∧ (∀ skip : Bool, ∀ files, ∃ docs warns,
        process_directory skip false files = Except.ok (docs, warns))
    ∧ (∀ skip : Bool, ∀ pre fe rest e docs1 warns1 docs2 warns2,
        fileIsProcessed fe.file skip = true →
        fe.parsed = Except.error e →
        process_directory skip false pre = Except.ok (docs1, warns1) →
        process_directory skip false rest = Except.ok (docs2, warns2) →
        process_directory skip false (pre ++ fe :: rest)
          = Except.ok (docs1 ++ docs2,
              warns1 ++ ⟨joinPath fe.root fe.file, e⟩ :: warns2)) :=
  ⟨fun module_name e path => by rw [parse_module],
   fun skip pre fe rest e hpre hproc herr =>
     process_directory_strict_first_error skip pre fe rest e hpre hproc herr,
   process_directory_lenient_ok,
   fun skip pre fe rest e docs1 warns1 docs2 warns2 hproc herr h1 h2 =>
     process_directory_lenient_skip skip pre fe rest e docs1 warns1 docs2 warns2
       hproc herr h1 h2⟩

/-- C8 witness: a single malformed file aborts the batch under the strict
policy and is skipped with one warning under the lenient policy. -/
theorem claim8_witness :
    process_directory true true [⟨"", "bad.py", Except.error "boom"⟩]
      = Except.error "boom"
    ∧ process_directory true false [⟨"", "bad.py", Except.error "boom"⟩]
      = Except.ok ([], [⟨"bad.py", "boom"⟩]) := by
  constructor
  · simpa using claim8_error_policy.2.1 true [] ⟨"", "bad.py", Except.error "boom"⟩ [] "boom"
      (by intro g hg; cases hg) (by decide) rfl
  · simpa [joinPath] using claim8_error_policy.2.2.2 true []
      ⟨"", "bad.py", Except.error "boom"⟩ [] "boom" [] [] [] []
      (by decide) rfl rfl rfl

end DocstringWalker
